import Mathlib

/-!
Shallow embedding of the `deepinv` fragment:
  * `src/deepinv/unfolded/unfolded.py` — `BaseUnfold.__init__` and `unfolded_builder`,
  * `src/deepinv/utils/nn.py` — `save_model`.

Tensors and scalar quantities are modelled as `Int`; the torch wrappers
(`nn.Parameter`, `nn.ParameterList`, `nn.ParameterDict`, `nn.ModuleList`) are
modelled as tagged constructors so that "being wrapped" is observable, while the
wrapped contents stay intact, as in torch.
-/

/-- A value stored in `params_algo`.  `Val.base n` is a plain numeric value;
`Val.param v d` is `nn.Parameter(torch.tensor(v).to(d))`: a learnable parameter
built from `v` and moved to device `d`. -/
inductive Val where
  | base : Int → Val
  | param : Val → String → Val
deriving DecidableEq, Repr

/-- A value of the `init_params_algo` dictionary: either a plain python list of
per-iteration values, or an `nn.ParameterList`. -/
inductive Entry where
  | pyList : List Val → Entry
  | paramList : List Val → Entry
deriving DecidableEq, Repr

/-- Iterating over either container yields its elements, as in python. -/
def Entry.elems : Entry → List Val
  | .pyList l => l
  | .paramList l => l

/-- A python dict from parameter names to entries (keys are unique in actual
dicts; lookup takes the first match). -/
abbrev Params := List (String × Entry)

/-- `d[k]` lookup returning `none` when `k not in d.keys()`. -/
def getEntry : Params → String → Option Entry
  | [], _ => none
  | p :: rest, k => if p.1 = k then some p.2 else getEntry rest k

/-- `d[k] = v` on a key: replaces the value at every pair whose key is `k`,
keeping positions (python dict assignment on an existing key). -/
def setEntry : Params → String → Entry → Params
  | [], _, _ => []
  | p :: rest, k, v => (if p.1 = k then (k, v) else p) :: setEntry rest k v

/-- A g-step / f-step module of an iterator, abstracted as a map on tensors. -/
abbrev StepFn := Int → Int

/-- A data-fidelity term; `app x y physics` is the python call
`data_fidelity(x, y, physics)`. -/
structure DataFidelity where
  app : Int → Int → Int → Int

/-- A prior with its `explicit_prior` flag and regularizer `g x g_param`. -/
structure Prior where
  explicit_prior : Bool
  g : Int → Int → Int

/-- A cost function `F_fn(x, prior, cur_params, y, physics)`; `cur_params` is
read by key. -/
abbrev FFn := Int → Prior → (String → Int) → Int → Int → Int

/-- An optimization iterator object (an instance of a `...Iteration` class). -/
structure Iterator where
  className : String
  data_fidelity : DataFidelity
  g_first : Bool
  beta : Int
  F_fn : Option FFn
  has_cost : Bool
  g_step : StepFn
  f_step : StepFn

/-- The container holding `self.prior`: a plain python list after
`BaseOptim.__init__`, or an `nn.ModuleList`. -/
inductive PriorContainer where
  | raw : List Prior → PriorContainer
  | moduleList : List Prior → PriorContainer

/-- Iterating over either prior container yields its priors. -/
def PriorContainer.elems : PriorContainer → List Prior
  | .raw l => l
  | .moduleList l => l

/-- An `nn.ParameterDict` wrapping a parameter dictionary; `.copy()` yields an
equal dictionary, so it is modelled by the wrapped entries themselves. -/
structure ParameterDict where
  entries : Params
deriving Repr

/-- The attributes of `self` right after `super().__init__(*args, **kwargs)`
inside `BaseUnfold.__init__` (set by `BaseOptim.__init__`, outside this
fragment; the state is universally quantified in the theorems about
`BaseUnfold`). -/
structure BaseOptimState where
  init_params_algo : Params
  params_algo : Params
  prior : PriorContainer
  iterator : Iterator
  has_cost : Bool

/-- The attributes of `self` when `BaseUnfold.__init__` returns. -/
structure BaseUnfoldState where
  init_params_algo : ParameterDict
  params_algo : ParameterDict
  prior : PriorContainer
  iterator : Iterator
  has_cost : Bool

/-- One pass of the loop body of `BaseUnfold.__init__` for one `param_key`:
if the key is in `init_params_algo`, its value becomes
`nn.ParameterList([nn.Parameter(torch.tensor(el).to(device)) for el in param_value])`;
otherwise nothing happens. -/
def trainStep (device : String) (d : Params) (key : String) : Params :=
  match getEntry d key with
  | some e => setEntry d key (Entry.paramList (e.elems.map (fun el => Val.param el device)))
  | none => d

/-- The whole `for param_key in trainable_params` loop of `BaseUnfold.__init__`. -/
def makeTrainable (device : String) (trainable : List String) (d : Params) : Params :=
  trainable.foldl (trainStep device) d

/-- `BaseUnfold.__init__` after the `super().__init__` call, as a function of
the state `s0` produced by `BaseOptim.__init__`: makes the listed parameters
trainable, wraps `init_params_algo` in an `nn.ParameterDict` and copies it into
`params_algo`, wraps `self.prior` in an `nn.ModuleList`, and overwrites the
iterator's `g_step` / `f_step` exactly when a custom step is supplied. -/
def BaseUnfold_init (s0 : BaseOptimState) (trainable : List String)
    (custom_g_step custom_f_step : Option StepFn) (device : String) : BaseUnfoldState :=
  let d := makeTrainable device trainable s0.init_params_algo
  { init_params_algo := ⟨d⟩
    params_algo := ⟨d⟩
    prior := PriorContainer.moduleList s0.prior.elems
    iterator := { s0.iterator with
                    g_step := custom_g_step.getD s0.iterator.g_step
                    f_step := custom_f_step.getD s0.iterator.f_step }
    has_cost := s0.has_cost }

/-- The `prior` keyword argument of `unfolded_builder`: a single prior or a
list of priors. -/
inductive PriorArg where
  | single : Prior → PriorArg
  | listArg : List Prior → PriorArg

/-- `kwargs["prior"][0].explicit_prior if isinstance(kwargs["prior"], list)
else kwargs["prior"].explicit_prior`; `none` models the `IndexError` raised on
an empty list. -/
def PriorArg.explicitPrior : PriorArg → Option Bool
  | .single p => some p.explicit_prior
  | .listArg ps => ps.head?.map (fun p => p.explicit_prior)

/-- The priors held by the `prior` argument, as the list `BaseOptim` stores. -/
def PriorArg.toPriors : PriorArg → List Prior
  | .single p => [p]
  | .listArg ps => ps

/-- The default cost function that `unfolded_builder` defines when `F_fn` is
`None` and the prior is explicit:
`cur_params["lambda"] * data_fidelity(x, y, physics) + prior.g(x, cur_params["g_param"])`. -/
def default_F_fn (data_fidelity : DataFidelity) : FFn :=
  fun x prior cur_params y physics =>
    cur_params "lambda" * data_fidelity.app x y physics + prior.g x (cur_params "g_param")

/-- The value bound to `F_fn` after the `if F_fn is None and explicit_prior`
block of `unfolded_builder`. -/
def effectiveFFn : Option FFn → Bool → DataFidelity → Option FFn
  | none, true, df => some (default_F_fn df)
  | f, _, _ => f

/-- The `has_cost` flag computed by `unfolded_builder`. -/
def builder_has_cost : Option FFn → Bool → Bool
  | none, true => true
  | _, _ => false

/-- Modelled from the spec: `str_to_class` lives in `deepinv.optim.optimizers`,
outside this fragment.  It resolves the class named `cname`; instantiating the
resolved iteration class yields an iterator of that class holding the given
constructor arguments.  The class's built-in step modules are out of scope and
modelled by a fixed default. -/
def str_to_class (cname : String) (data_fidelity : DataFidelity) (g_first : Bool)
    (beta : Int) (F_fn : Option FFn) (has_cost : Bool) : Iterator :=
  { className := cname
    data_fidelity := data_fidelity
    g_first := g_first
    beta := beta
    F_fn := F_fn
    has_cost := has_cost
    g_step := fun x => x
    f_step := fun x => x }

/-- The `iteration` argument of `unfolded_builder`: an algorithm name or an
iterator object. -/
inductive IterationArg where
  | str : String → IterationArg
  | obj : Iterator → IterationArg

/-- The `if isinstance(iteration, str)` block of `unfolded_builder`: a string
selects the class named `iteration + "Iteration"` and instantiates it; any
other argument is used as the iterator itself. -/
def selectIterator (iteration : IterationArg) (df : DataFidelity) (gf : Bool)
    (b : Int) (f : Option FFn) (hc : Bool) : Iterator :=
  match iteration with
  | .str s => str_to_class (s ++ "Iteration") df gf b f hc
  | .obj it => it

/-- Modelled from the spec: `BaseOptim.__init__` lives in
`deepinv.optim.optimizers`, outside this fragment.  It stores the given
iterator and `has_cost` flag, sets up the initial per-iteration parameter
dictionary from the `params_algo` keyword argument, and stores the priors as a
plain list. -/
def BaseOptim_init (iterator : Iterator) (has_cost : Bool) (params_algo : Params)
    (priors : List Prior) : BaseOptimState :=
  { init_params_algo := params_algo
    params_algo := params_algo
    prior := PriorContainer.raw priors
    iterator := iterator
    has_cost := has_cost }

/-- `unfolded_builder`: computes `explicit_prior` from the `prior` keyword
argument (`none` models the `IndexError` on an empty prior list), installs the
default cost function when appropriate, assembles the iterator, and wraps it in
a `BaseUnfold`.  The keyword arguments forwarded to `BaseUnfold` are explicit
parameters. -/
def unfolded_builder (iteration : IterationArg) (data_fidelity : DataFidelity)
    (F_fn : Option FFn) (g_first : Bool) (beta : Int) (prior : PriorArg)
    (params_algo : Params) (trainable : List String)
    (custom_g_step custom_f_step : Option StepFn) (device : String) :
    Option BaseUnfoldState :=
  match prior.explicitPrior with
  | none => none
  | some ep =>
    let F := effectiveFFn F_fn ep data_fidelity
    let hc := builder_has_cost F_fn ep
    let iterator := selectIterator iteration data_fidelity g_first beta F hc
    some (BaseUnfold_init (BaseOptim_init iterator hc params_algo prior.toPriors)
      trainable custom_g_step custom_f_step device)

/-- The checkpoint file name `'ckp_{}.pth.tar'.format(epoch)`. -/
def ckpName (epoch : Nat) : String := "ckp_" ++ toString epoch ++ ".pth.tar"

/-- `save_model` from `src/deepinv/utils/nn.py`, modelling the write effect as
the path of the checkpoint file written (`none` when nothing is written).  The
guard is `(epoch > 0 and epoch % ckp_interval == 0) or epoch + 1 == epochs`;
`ckp_interval = 0` (a `ZeroDivisionError` in python) is excluded by hypothesis
in the theorems. -/
def save_model (epoch ckp_interval epochs : Nat) (save_path : String) : Option String :=
  if (0 < epoch ∧ epoch % ckp_interval = 0) ∨ epoch + 1 = epochs then
    some (save_path ++ "/" ++ ckpName epoch)
  else none

/-- Sample data-fidelity term used by the witnesses. -/
def sampleDF : DataFidelity := ⟨fun x y p => x + y + p⟩

/-- Sample explicit prior used by the witnesses. -/
def samplePrior : Prior := ⟨true, fun x s => x * s⟩

/-- Sample custom cost function used by the witnesses. -/
def sampleFFn : FFn := fun x _ _ y p => x + y + p

/-- Sample iterator used by the witnesses. -/
def sampleIterator : Iterator :=
  { className := "PGDIteration"
    data_fidelity := sampleDF
    g_first := false
    beta := 1
    F_fn := none
    has_cost := false
    g_step := fun x => x
    f_step := fun x => x + 1 }

/-- Sample post-`BaseOptim.__init__` state used by the witnesses. -/
def sampleState : BaseOptimState :=
  { init_params_algo := [("stepsize", Entry.pyList [Val.base 1, Val.base 2]),
                         ("g_param", Entry.pyList [Val.base 3])]
    params_algo := []
    prior := PriorContainer.raw [samplePrior]
    iterator := sampleIterator
    has_cost := false }

/-! ### Dictionary and loop lemmas -/

theorem getEntry_setEntry_self (d : Params) (k : String) (v e : Entry)
    (he : getEntry d k = some e) : getEntry (setEntry d k v) k = some v := by
  induction d with
  | nil => simp [getEntry] at he
  | cons p rest ih =>
    by_cases h : p.1 = k
    · simp [getEntry, setEntry, h]
    · simp [getEntry, setEntry, h] at he ⊢
      exact ih he

theorem getEntry_setEntry_ne (d : Params) (k k2 : String) (v : Entry)
    (hne : k2 ≠ k) : getEntry (setEntry d k v) k2 = getEntry d k2 := by
  induction d with
  | nil => rfl
  | cons p rest ih =>
    by_cases h : p.1 = k
    · have hk2 : ¬(k = k2) := fun hh => hne hh.symm
      have hp : ¬(p.1 = k2) := by rw [h]; exact hk2
      simp [getEntry, setEntry, h, hk2, hp, ih]
    · simp only [getEntry, setEntry, if_neg h]
      by_cases h2 : p.1 = k2 <;> simp [getEntry, h2, ih]

theorem trainStep_getEntry_ne (device : String) (d : Params) (t key : String)
    (hne : key ≠ t) : getEntry (trainStep device d t) key = getEntry d key := by
  unfold trainStep
  cases h : getEntry d t with
  | none => rfl
  | some e => exact getEntry_setEntry_ne d t key _ hne

theorem trainStep_none (device : String) (d : Params) (t key : String)
    (h : getEntry d key = none) : getEntry (trainStep device d t) key = none := by
  by_cases hkt : key = t
  · subst hkt
    unfold trainStep
    rw [h]
    exact h
  · rw [trainStep_getEntry_ne device d t key hkt]
    exact h

theorem makeTrainable_not_mem (device : String) (trainable : List String)
    (d : Params) (key : String) (hmem : key ∉ trainable) :
    getEntry (makeTrainable device trainable d) key = getEntry d key := by
  induction trainable generalizing d with
  | nil => rfl
  | cons t ts ih =>
    have h1 : key ≠ t := fun h => hmem (by simp [h])
    have h2 : key ∉ ts := fun h => hmem (List.mem_cons_of_mem _ h)
    calc getEntry (makeTrainable device (t :: ts) d) key
        = getEntry (makeTrainable device ts (trainStep device d t)) key := rfl
      _ = getEntry (trainStep device d t) key := ih _ h2
      _ = getEntry d key := trainStep_getEntry_ne device d t key h1

theorem makeTrainable_none (device : String) (trainable : List String)
    (d : Params) (key : String) (h : getEntry d key = none) :
    getEntry (makeTrainable device trainable d) key = none := by
  induction trainable generalizing d with
  | nil => exact h
  | cons t ts ih => exact ih _ (trainStep_none device d t key h)

theorem makeTrainable_mem (device : String) (trainable : List String)
    (d : Params) (key : String) (e : Entry) (hnd : trainable.Nodup)
    (hmem : key ∈ trainable) (he : getEntry d key = some e) :
    getEntry (makeTrainable device trainable d) key =
      some (Entry.paramList (e.elems.map (fun el => Val.param el device))) := by
  induction trainable generalizing d with
  | nil => cases hmem
  | cons t ts ih =>
    by_cases hkt : key = t
    · subst hkt
      have hstep : getEntry (trainStep device d key) key =
          some (Entry.paramList (e.elems.map (fun el => Val.param el device))) := by
        unfold trainStep
        rw [he]
        exact getEntry_setEntry_self d key _ e he
      have hts : key ∉ ts := (List.nodup_cons.mp hnd).1
      calc getEntry (makeTrainable device (key :: ts) d) key
          = getEntry (makeTrainable device ts (trainStep device d key)) key := rfl
        _ = getEntry (trainStep device d key) key :=
            makeTrainable_not_mem device ts _ key hts
        _ = _ := hstep
    · have hts : key ∈ ts := by
        cases hmem with
        | head => exact absurd rfl hkt
        | tail _ h => exact h
      have he2 : getEntry (trainStep device d t) key = some e := by
        rw [trainStep_getEntry_ne device d t key hkt]
        exact he
      exact ih _ (List.nodup_cons.mp hnd).2 hts he2

/-! ### Claims about `BaseUnfold.__init__` -/

/-- Claim C1: for every key in `trainable_params` that is also a key of
`init_params_algo`, `BaseUnfold.__init__` replaces that key's list value with an
`nn.ParameterList` of the same length and order, whose k-th element is a
learnable `nn.Parameter` built from the k-th original value and moved to the
given device. -/
theorem claim_C1_trainable_become_parameters
    (s0 : BaseOptimState) (trainable : List String) (cg cf : Option StepFn)
    (device key : String) (e : Entry) (hnd : trainable.Nodup)
    (hmem : key ∈ trainable) (he : getEntry s0.init_params_algo key = some e) :
    getEntry (BaseUnfold_init s0 trainable cg cf device).init_params_algo.entries key =
        some (Entry.paramList (e.elems.map (fun el => Val.param el device))) ∧
      (e.elems.map (fun el => Val.param el device)).length = e.elems.length ∧
      ∀ k : Nat, (e.elems.map (fun el => Val.param el device))[k]? =
        e.elems[k]?.map (fun el => Val.param el device) := by
  refine ⟨?_, by simp, fun k => by simp⟩
  exact makeTrainable_mem device trainable s0.init_params_algo key e hnd hmem he

/-- Witness for C1 on a concrete state and key. -/
theorem claim_C1_witness :
    (["stepsize"] : List String).Nodup ∧ "stepsize" ∈ (["stepsize"] : List String) ∧
      getEntry sampleState.init_params_algo "stepsize" =
        some (Entry.pyList [Val.base 1, Val.base 2]) ∧
      getEntry (BaseUnfold_init sampleState ["stepsize"] none none "cuda").init_params_algo.entries
          "stepsize" =
        some (Entry.paramList [Val.param (Val.base 1) "cuda", Val.param (Val.base 2) "cuda"]) :=
  ⟨by decide, by decide, rfl,
    (claim_C1_trainable_become_parameters sampleState ["stepsize"] none none "cuda" "stepsize"
      (Entry.pyList [Val.base 1, Val.base 2]) (by decide) (by decide) rfl).1⟩

/-- Claim C4: `BaseUnfold.__init__` always re-registers the priors as
submodules, wrapping `self.prior` in an `nn.ModuleList` holding the same
priors. -/
theorem claim_C4_prior_wrapped_in_modulelist
    (s0 : BaseOptimState) (trainable : List String) (cg cf : Option StepFn)
    (device : String) :
    (BaseUnfold_init s0 trainable cg cf device).prior =
      PriorContainer.moduleList s0.prior.elems := rfl

/-- Claim C5: `BaseUnfold` is only a wrapper around the iterator it is given:
`g_step` is overwritten exactly when `custom_g_step` is not `None`, `f_step`
exactly when `custom_f_step` is not `None`, every other attribute of the
iterator is untouched, and when both are `None` the iterator is unchanged. -/
theorem claim_C5_iterator_steps
    (s0 : BaseOptimState) (trainable : List String) (cg cf : Option StepFn)
    (device : String) :
    (BaseUnfold_init s0 trainable cg cf device).iterator =
        { s0.iterator with
            g_step := cg.getD s0.iterator.g_step
            f_step := cf.getD s0.iterator.f_step } ∧
      (BaseUnfold_init s0 trainable none none device).iterator = s0.iterator :=
  ⟨rfl, rfl⟩

/-- Claim C7: keys of `trainable_params` absent from `init_params_algo` raise
no error and stay absent, and keys of `init_params_algo` not listed in
`trainable_params` keep their original value. -/
theorem claim_C7_untrained_keys_frame
    (s0 : BaseOptimState) (trainable : List String) (cg cf : Option StepFn)
    (device key : String) :
    (key ∈ trainable → getEntry s0.init_params_algo key = none →
        getEntry (BaseUnfold_init s0 trainable cg cf device).init_params_algo.entries key =
          none) ∧
      (key ∉ trainable →
        getEntry (BaseUnfold_init s0 trainable cg cf device).init_params_algo.entries key =
          getEntry s0.init_params_algo key) := by
  constructor
  · intro _ h
    exact makeTrainable_none device trainable s0.init_params_algo key h
  · intro h
    exact makeTrainable_not_mem device trainable s0.init_params_algo key h

/-- Witness for C7: a trainable key missing from the dictionary stays absent,
and an unlisted key keeps its value. -/
theorem claim_C7_witness :
    "momentum" ∈ (["momentum"] : List String) ∧
      getEntry sampleState.init_params_algo "momentum" = none ∧
      getEntry (BaseUnfold_init sampleState ["momentum"] none none "cpu").init_params_algo.entries
          "momentum" = none ∧
      getEntry (BaseUnfold_init sampleState ["momentum"] none none "cpu").init_params_algo.entries
          "g_param" = some (Entry.pyList [Val.base 3]) :=
  ⟨by decide, rfl,
    (claim_C7_untrained_keys_frame sampleState ["momentum"] none none "cpu" "momentum").1
      (by decide) rfl,
    ((claim_C7_untrained_keys_frame sampleState ["momentum"] none none "cpu" "g_param").2
      (by decide)).trans rfl⟩

/-! ### Claims about `unfolded_builder` -/

/-- Claim C2: for a string argument the iterator is built by resolving the
class named `iteration + "Iteration"` and instantiating it with the given
`data_fidelity`, `g_first`, `beta`, (effective) `F_fn` and `has_cost`; any
other argument is used as the iterator itself; in both cases the result is a
`BaseUnfold` wrapping that iterator. -/
theorem claim_C2_iterator_selection
    (df : DataFidelity) (F_fn : Option FFn) (gf : Bool) (b : Int) (pr : PriorArg)
    (pa : Params) (tp : List String) (cg cf : Option StepFn) (device : String)
    (ep : Bool) (hep : pr.explicitPrior = some ep) :
    (∀ s : String,
        unfolded_builder (.str s) df F_fn gf b pr pa tp cg cf device =
          some (BaseUnfold_init
            (BaseOptim_init
              (str_to_class (s ++ "Iteration") df gf b (effectiveFFn F_fn ep df)
                (builder_has_cost F_fn ep))
              (builder_has_cost F_fn ep) pa pr.toPriors)
            tp cg cf device)) ∧
      (∀ it : Iterator,
        unfolded_builder (.obj it) df F_fn gf b pr pa tp cg cf device =
          some (BaseUnfold_init
            (BaseOptim_init it (builder_has_cost F_fn ep) pa pr.toPriors)
            tp cg cf device)) := by
  constructor <;> intro x <;> simp [unfolded_builder, hep, selectIterator]

/-- Witness for C2: the name "PGD" selects the class "PGDIteration". -/
theorem claim_C2_witness :
    (PriorArg.single samplePrior).explicitPrior = some true ∧
      unfolded_builder (.str "PGD") sampleDF none false 1 (PriorArg.single samplePrior)
          [] [] none none "cpu" =
        some (BaseUnfold_init
          (BaseOptim_init
            (str_to_class "PGDIteration" sampleDF false 1 (effectiveFFn none true sampleDF)
              (builder_has_cost none true))
            (builder_has_cost none true) [] [samplePrior])
          [] none none "cpu") :=
  ⟨rfl,
    (claim_C2_iterator_selection sampleDF none false 1 (PriorArg.single samplePrior)
      [] [] none none "cpu" true rfl).1 "PGD"⟩

/-- Claim C3: when `F_fn` is `None` and the prior is explicit,
`unfolded_builder` installs the default cost function
`cur_params["lambda"] * data_fidelity(x, y, physics) + prior.g(x, cur_params["g_param"])`. -/
theorem claim_C3_default_cost_function
    (df : DataFidelity) (gf : Bool) (b : Int) (pr : PriorArg) (pa : Params)
    (tp : List String) (cg cf : Option StepFn) (device s : String)
    (hep : pr.explicitPrior = some true) :
    (unfolded_builder (.str s) df none gf b pr pa tp cg cf device).map
        (fun st => st.iterator.F_fn) = some (some (default_F_fn df)) ∧
      ∀ (x : Int) (p : Prior) (cp : String → Int) (y physics : Int),
        default_F_fn df x p cp y physics =
          cp "lambda" * df.app x y physics + p.g x (cp "g_param") := by
  refine ⟨?_, fun _ _ _ _ _ => rfl⟩
  simp [unfolded_builder, hep, selectIterator, str_to_class, BaseUnfold_init,
    BaseOptim_init, effectiveFFn]

/-- Witness for C3 on a concrete builder call and concrete arguments of the
default cost function. -/
theorem claim_C3_witness :
    (PriorArg.single samplePrior).explicitPrior = some true ∧
      (unfolded_builder (.str "HQS") sampleDF none false 1 (PriorArg.single samplePrior)
          [] [] none none "cpu").map (fun st => st.iterator.F_fn) =
        some (some (default_F_fn sampleDF)) ∧
      default_F_fn sampleDF 2 samplePrior (fun _ => 3) 7 11 =
        3 * sampleDF.app 2 7 11 + samplePrior.g 2 3 :=
  ⟨rfl,
    (claim_C3_default_cost_function sampleDF false 1 (PriorArg.single samplePrior)
      [] [] none none "cpu" "HQS" rfl).1,
    (claim_C3_default_cost_function sampleDF false 1 (PriorArg.single samplePrior)
      [] [] none none "cpu" "HQS" rfl).2 2 samplePrior (fun _ => 3) 7 11⟩

/-- Claim C6: `unfolded_builder` sets `has_cost` to true iff `F_fn` is `None`
and the prior is explicit; for any user-supplied `F_fn` the architecture is
built with `has_cost` false while that `F_fn` is still passed to the iterator
constructed from an algorithm name. -/
theorem claim_C6_has_cost_flag
    (df : DataFidelity) (gf : Bool) (b : Int) (pr : PriorArg) (pa : Params)
    (tp : List String) (cg cf : Option StepFn) (device : String)
    (ep : Bool) (hep : pr.explicitPrior = some ep) :
    (∀ (it : IterationArg) (F_fn : Option FFn),
        (unfolded_builder it df F_fn gf b pr pa tp cg cf device).map
          (fun st => st.has_cost) = some (builder_has_cost F_fn ep)) ∧
      (∀ F_fn : Option FFn,
        builder_has_cost F_fn ep = true ↔ F_fn = none ∧ ep = true) ∧
      (∀ (f : FFn) (s : String),
        (unfolded_builder (.str s) df (some f) gf b pr pa tp cg cf device).map
            (fun st => (st.has_cost, st.iterator.has_cost, st.iterator.F_fn)) =
          some (false, false, some f)) := by
  refine ⟨?_, ?_, ?_⟩
  · intro it F
    simp [unfolded_builder, hep, BaseUnfold_init, BaseOptim_init]
  · intro F
    cases F <;> cases ep <;> simp [builder_has_cost]
  · intro f s
    simp [unfolded_builder, hep, selectIterator, str_to_class, BaseUnfold_init,
      BaseOptim_init, builder_has_cost, effectiveFFn]

/-- Witness for C6: a custom cost function yields `has_cost = false` while the
custom `F_fn` is still installed on the named iterator. -/
theorem claim_C6_witness :
    (PriorArg.single samplePrior).explicitPrior = some true ∧
      (unfolded_builder (.str "DRS") sampleDF (some sampleFFn) false 1
          (PriorArg.single samplePrior) [] [] none none "cpu").map
        (fun st => (st.has_cost, st.iterator.has_cost, st.iterator.F_fn)) =
        some (false, false, some sampleFFn) :=
  ⟨rfl,
    (claim_C6_has_cost_flag sampleDF false 1 (PriorArg.single samplePrior)
      [] [] none none "cpu" true rfl).2.2 sampleFFn "DRS"⟩

/-! ### Claim about `save_model` -/

/-- Claim C8: given `ckp_interval` different from zero, `save_model` writes the
checkpoint file `ckp_{epoch}.pth.tar` under `save_path` iff
`(epoch > 0 and epoch % ckp_interval == 0) or epoch + 1 == epochs`, and
otherwise does nothing; the final epoch `epochs - 1` is always saved, and epoch
`0` is saved only when `epochs` equals `1`. -/
theorem claim_C8_save_model_condition
    (epoch ckp_interval epochs : Nat) (save_path : String)
    (hck : ckp_interval ≠ 0) :
    ((save_model epoch ckp_interval epochs save_path).isSome = true ↔
        (0 < epoch ∧ epoch % ckp_interval = 0) ∨ epoch + 1 = epochs) ∧
      (∀ f, save_model epoch ckp_interval epochs save_path = some f →
        f = save_path ++ "/" ++ ckpName epoch) ∧
      (1 ≤ epochs →
        save_model (epochs - 1) ckp_interval epochs save_path =
          some (save_path ++ "/" ++ ckpName (epochs - 1))) ∧
      (epoch = 0 →
        ((save_model epoch ckp_interval epochs save_path).isSome = true ↔
          epochs = 1)) := by
  refine ⟨?_, ?_, ?_, ?_⟩
  · unfold save_model
    by_cases hc : (0 < epoch ∧ epoch % ckp_interval = 0) ∨ epoch + 1 = epochs <;>
      simp [hc]
  · intro f hf
    unfold save_model at hf
    by_cases hc : (0 < epoch ∧ epoch % ckp_interval = 0) ∨ epoch + 1 = epochs
    · rw [if_pos hc] at hf
      exact (Option.some.inj hf).symm
    · rw [if_neg hc] at hf
      cases hf
  · intro he
    unfold save_model
    rw [if_pos (Or.inr (Nat.sub_add_cancel he))]
  · intro he
    subst he
    unfold save_model
    by_cases hc : epochs = 1 <;> simp [hc, eq_comm]

/-- Witness for C8: interval 2 over 10 epochs saves the final epoch 9, and the
saving guard holds at epoch 4. -/
theorem claim_C8_witness :
    (2 : Nat) ≠ 0 ∧
      save_model 9 2 10 "ckpts" = some ("ckpts" ++ "/" ++ ckpName 9) ∧
      ((save_model 4 2 10 "ckpts").isSome = true ↔
        (0 < 4 ∧ 4 % 2 = 0) ∨ 4 + 1 = 10) :=
  ⟨by decide,
    (claim_C8_save_model_condition 9 2 10 "ckpts" (by decide)).2.2.1 (by decide),
    (claim_C8_save_model_condition 4 2 10 "ckpts" (by decide)).1⟩
